import Mathlib

/-!
Verification of the transaction-processing engine in `src/main.rs`
(a toy payments ledger: deposits, withdrawals, disputes, resolves,
chargebacks over per-client accounts).

The embedding below translates the Rust source faithfully:
* `rust_decimal::Decimal` is modelled as `Dec`, a pair of an integer
  mantissa and a natural-number scale, whose exact value is the rational
  `mantissa / 10 ^ scale`.  `Decimal::scale()` is the `scale` field,
  `is_sign_negative` is `mantissa < 0`, and addition, subtraction and
  comparison rescale to the larger scale exactly as `rust_decimal` does
  (arithmetic is exact for the magnitudes involved; overflow of the
  96-bit mantissa is out of scope).
* `HashMap<u16, Account>`, `HashMap<u32, Record>` and `HashSet<u32>` are
  modelled as functions `Nat → Option Account`, `Nat → Option Record`
  and `Nat → Bool`.
* Each distinct error string produced by the Rust code is mapped to a
  constructor of `ErrKind`, matching the error taxonomy one to one.
* `Result<(), Box<dyn Error>>` becomes `Except ErrKind Unit`; the `?`
  early-return structure of the source is preserved by the nested
  matches, in particular a failing `process_deposit` returns before the
  `accounts.insert` in `process_transaction` runs.
-/

/-- Model of `rust_decimal::Decimal`: an integer mantissa together with a
scale (number of stored decimal places).  The exact numeric value is
`mantissa / 10 ^ scale`. -/
structure Dec where
  mantissa : Int
  scale : Nat
deriving DecidableEq

/-- The exact rational value of a `Dec`. -/
def Dec.value (d : Dec) : ℚ := (d.mantissa : ℚ) / (10 : ℚ) ^ d.scale

/-- Exact addition, as `rust_decimal` performs it: rescale both operands to
the larger scale and add the mantissas. -/
def Dec.add (a b : Dec) : Dec :=
  { mantissa := a.mantissa * 10 ^ (max a.scale b.scale - a.scale)
      + b.mantissa * 10 ^ (max a.scale b.scale - b.scale),
    scale := max a.scale b.scale }

/-- Exact subtraction, rescaling to the larger scale. -/
def Dec.sub (a b : Dec) : Dec :=
  { mantissa := a.mantissa * 10 ^ (max a.scale b.scale - a.scale)
      - b.mantissa * 10 ^ (max a.scale b.scale - b.scale),
    scale := max a.scale b.scale }

/-- Numeric comparison `a <= b`, as `rust_decimal`'s `PartialOrd` performs
it: compare the mantissas after rescaling to the common scale. -/
def Dec.le (a b : Dec) : Bool :=
  decide (a.mantissa * 10 ^ (max a.scale b.scale - a.scale)
    ≤ b.mantissa * 10 ^ (max a.scale b.scale - b.scale))

/-- Mirrors `has_valid_precision` (main.rs line 395): `amount.scale() <= 4`. -/
def has_valid_precision (d : Dec) : Bool := decide (d.scale ≤ 4)

/-- Mirrors `Decimal::is_sign_negative` as used at main.rs lines 223 and
256 (the sign flag of a zero mantissa is not modelled: a negatively signed
zero is treated as non-negative, which never affects a balance). -/
def Dec.is_sign_negative (d : Dec) : Bool := decide (d.mantissa < 0)

/-- The error taxonomy: one constructor per distinct error produced by the
Rust code (each corresponds to one `Err(...)` string in main.rs). -/
inductive ErrKind where
  | unknownTxType
  | unknownAccount
  | lockedAccount
  | duplicateTxId
  | missingAmount
  | negativeAmount
  | precisionExceeded
  | insufficientFunds
  | insufficientAvailable
  | insufficientHeld
  | txNotFound
  | notDisputable
  | alreadyDisputed
  | notDisputed
deriving DecidableEq

deriving instance DecidableEq for Except

/-- Mirrors `struct Account` (main.rs lines 45-51). -/
structure Account where
  available : Dec
  held : Dec
  total : Dec
  locked : Bool
deriving DecidableEq

/-- Mirrors `Account::new` (main.rs lines 54-61): all balances are
`Decimal::new(0, 0)`. -/
def Account.new : Account :=
  { available := ⟨0, 0⟩, held := ⟨0, 0⟩, total := ⟨0, 0⟩, locked := false }

/-- Mirrors `Account::deposit` (main.rs lines 63-70). -/
def Account.deposit (a : Account) (amount : Dec) : Except ErrKind Account :=
  if a.locked then .error .lockedAccount
  else .ok { a with available := a.available.add amount, total := a.total.add amount }

/-- Mirrors `Account::withdraw` (main.rs lines 72-83). -/
def Account.withdraw (a : Account) (amount : Dec) : Except ErrKind Account :=
  if a.locked then .error .lockedAccount
  else if amount.le a.available then
    .ok { a with available := a.available.sub amount, total := a.total.sub amount }
  else .error .insufficientFunds

/-- Mirrors `Account::apply_dispute` (main.rs lines 85-96). -/
def Account.apply_dispute (a : Account) (amount : Dec) : Except ErrKind Account :=
  if a.locked then .error .lockedAccount
  else if amount.le a.available then
    .ok { a with available := a.available.sub amount, held := a.held.add amount }
  else .error .insufficientAvailable

/-- Mirrors `Account::resolve_dispute` (main.rs lines 98-109). -/
def Account.resolve_dispute (a : Account) (amount : Dec) : Except ErrKind Account :=
  if a.locked then .error .lockedAccount
  else if amount.le a.held then
    .ok { a with held := a.held.sub amount, available := a.available.add amount }
  else .error .insufficientHeld

/-- Mirrors `Account::chargeback` (main.rs lines 111-123): note the source
checks `self.locked` first, then `self.held >= amount`. -/
def Account.chargeback (a : Account) (amount : Dec) : Except ErrKind Account :=
  if a.locked then .error .lockedAccount
  else if amount.le a.held then
    .ok { a with total := a.total.sub amount, held := a.held.sub amount, locked := true }
  else .error .insufficientHeld

/-- Model of `str::to_lowercase` as applied to the ASCII type tags of this
ledger: lowercase every character.  (Defined by mapping `Char.toLower` over
the character list so that it reduces in the kernel; on the strings involved
it agrees with `String.toLower`.) -/
def strToLower (s : String) : String := String.mk (s.data.map Char.toLower)

/-- Mirrors `enum TxType` (main.rs lines 11-18). -/
inductive TxType where
  | deposit
  | withdrawal
  | dispute
  | resolve
  | chargeback
deriving DecidableEq

/-- Mirrors `TxType::from_str` (main.rs lines 20-33): case-insensitive match
on the record's type string; unknown strings are the `UnknownTransactionType`
failure, modelled as `none`. -/
def TxType.from_str (s : String) : Option TxType :=
  match strToLower s with
  | "deposit" => some .deposit
  | "withdrawal" => some .withdrawal
  | "dispute" => some .dispute
  | "resolve" => some .resolve
  | "chargeback" => some .chargeback
  | _ => none

/-- Mirrors `struct Record` (main.rs lines 35-43): the type tag is kept as a
string, exactly as in the source (it is parsed by `TxType.from_str` in
`process_transaction` and re-inspected lowercased in `process_dispute`). -/
structure Record where
  tx_type : String
  client : Nat
  tx : Nat
  amount : Option Dec
deriving DecidableEq

/-- Pointwise update of a map modelled as a function (`HashMap::insert` /
`HashSet::insert` / `HashSet::remove`). -/
def upd {α : Type} (f : Nat → α) (k : Nat) (v : α) : Nat → α :=
  fun n => if n = k then v else f n

/-- The router's mutable state: the three collections owned by `main`
(main.rs lines 138-140). -/
structure RState where
  accounts : Nat → Option Account
  transactions : Nat → Option Record
  disputes : Nat → Bool

/-- The empty initial state (all three collections start empty). -/
def initState : RState :=
  { accounts := fun _ => none, transactions := fun _ => none, disputes := fun _ => false }

/-- Mirrors `process_deposit` (main.rs lines 213-244): duplicate-id check,
then missing amount, negative, precision, `Account::deposit`, and only on
success the insertion into the transaction history. -/
def process_deposit (r : Record) (acc : Account) (txs : Nat → Option Record) :
    Except ErrKind (Account × (Nat → Option Record)) :=
  if (txs r.tx).isSome then .error .duplicateTxId
  else match r.amount with
  | some amt =>
    if amt.is_sign_negative then .error .negativeAmount
    else if has_valid_precision amt = false then .error .precisionExceeded
    else match acc.deposit amt with
      | .error e => .error e
      | .ok acc' => .ok (acc', upd txs r.tx (some r))
  | none => .error .missingAmount

/-- Mirrors `process_withdrawal` (main.rs lines 246-278): same checks as
`process_deposit`, with `Account::withdraw` in place of `Account::deposit`. -/
def process_withdrawal (r : Record) (acc : Account) (txs : Nat → Option Record) :
    Except ErrKind (Account × (Nat → Option Record)) :=
  if (txs r.tx).isSome then .error .duplicateTxId
  else match r.amount with
  | some amt =>
    if amt.is_sign_negative then .error .negativeAmount
    else if has_valid_precision amt = false then .error .precisionExceeded
    else match acc.withdraw amt with
      | .error e => .error e
      | .ok acc' => .ok (acc', upd txs r.tx (some r))
  | none => .error .missingAmount

/-- Mirrors `process_dispute` (main.rs lines 280-310): history lookup, then
the "is a deposit" check on the lowercased stored type string, then the
already-disputed check, then the amount is taken from the historical record
and `Account::apply_dispute` is called; on success the id is added to the
dispute set. -/
def process_dispute (r : Record) (acc : Account) (txs : Nat → Option Record)
    (disp : Nat → Bool) : Except ErrKind (Account × (Nat → Bool)) :=
  match txs r.tx with
  | none => .error .txNotFound
  | some dtx =>
    if strToLower dtx.tx_type ≠ "deposit" then .error .notDisputable
    else if disp r.tx then .error .alreadyDisputed
    else match dtx.amount with
      | some amt =>
        match acc.apply_dispute amt with
        | .error e => .error e
        | .ok acc' => .ok (acc', upd disp r.tx true)
      | none => .error .missingAmount

/-- Mirrors `process_resolve` (main.rs lines 312-345): the not-disputed check
comes first, then the history lookup, then `Account::resolve_dispute`; on
success the id is removed from the dispute set.  (The debug `eprintln!` calls
in the source have no state effect and are omitted.) -/
def process_resolve (r : Record) (acc : Account) (txs : Nat → Option Record)
    (disp : Nat → Bool) : Except ErrKind (Account × (Nat → Bool)) :=
  if disp r.tx = false then .error .notDisputed
  else match txs r.tx with
  | none => .error .txNotFound
  | some dtx =>
    match dtx.amount with
    | some amt =>
      match acc.resolve_dispute amt with
      | .error e => .error e
      | .ok acc' => .ok (acc', upd disp r.tx false)
    | none => .error .missingAmount

/-- Mirrors `process_chargeback` (main.rs lines 347-375): same shape as
`process_resolve` with `Account::chargeback`. -/
def process_chargeback (r : Record) (acc : Account) (txs : Nat → Option Record)
    (disp : Nat → Bool) : Except ErrKind (Account × (Nat → Bool)) :=
  if disp r.tx = false then .error .notDisputed
  else match txs r.tx with
  | none => .error .txNotFound
  | some dtx =>
    match dtx.amount with
    | some amt =>
      match acc.chargeback amt with
      | .error e => .error e
      | .ok acc' => .ok (acc', upd disp r.tx false)
    | none => .error .missingAmount

/-- Mirrors `process_transaction` (main.rs lines 159-211).  Note the Deposit
branch: the account is looked up (or freshly created), `process_deposit` runs
on it, and the `accounts.insert` happens only after `process_deposit`
succeeded — in the source the `?` on line 174 returns before the insert on
line 177, so a failed deposit never creates or updates the account entry.
Withdrawal/Dispute/Resolve/Chargeback require an existing account first. -/
def process_transaction (s : RState) (r : Record) : RState × Except ErrKind Unit :=
  match TxType.from_str r.tx_type with
  | none => (s, .error .unknownTxType)
  | some .deposit =>
    match process_deposit r ((s.accounts r.client).getD Account.new) s.transactions with
    | .error e => (s, .error e)
    | .ok (acc', txs') =>
      ({ s with accounts := upd s.accounts r.client (some acc'), transactions := txs' },
       .ok ())
  | some .withdrawal =>
    match s.accounts r.client with
    | none => (s, .error .unknownAccount)
    | some acc =>
      match process_withdrawal r acc s.transactions with
      | .error e => (s, .error e)
      | .ok (acc', txs') =>
        ({ s with accounts := upd s.accounts r.client (some acc'), transactions := txs' },
         .ok ())
  | some .dispute =>
    match s.accounts r.client with
    | none => (s, .error .unknownAccount)
    | some acc =>
      match process_dispute r acc s.transactions s.disputes with
      | .error e => (s, .error e)
      | .ok (acc', disp') =>
        ({ s with accounts := upd s.accounts r.client (some acc'), disputes := disp' },
         .ok ())
  | some .resolve =>
    match s.accounts r.client with
    | none => (s, .error .unknownAccount)
    | some acc =>
      match process_resolve r acc s.transactions s.disputes with
      | .error e => (s, .error e)
      | .ok (acc', disp') =>
        ({ s with accounts := upd s.accounts r.client (some acc'), disputes := disp' },
         .ok ())
  | some .chargeback =>
    match s.accounts r.client with
    | none => (s, .error .unknownAccount)
    | some acc =>
      match process_chargeback r acc s.transactions s.disputes with
      | .error e => (s, .error e)
      | .ok (acc', disp') =>
        ({ s with accounts := upd s.accounts r.client (some acc'), disputes := disp' },
         .ok ())

/-- Processing a list of records in order, discarding the per-record outcome,
as the loop in `main` (main.rs lines 143-153) does. -/
def processList (s : RState) (rs : List Record) : RState :=
  rs.foldl (fun s r => (process_transaction s r).1) s

/-! ### Value lemmas for the decimal model -/

/-- Rescaling a fraction to a larger power-of-ten denominator preserves its
value. -/
theorem Dec.cast_div_pow (m : ℤ) (s' s : Nat) (h : s' ≤ s) :
    (m : ℚ) * (10 : ℚ) ^ (s - s') / (10 : ℚ) ^ s = (m : ℚ) / (10 : ℚ) ^ s' := by
  have h10 : (10 : ℚ) ^ s = (10 : ℚ) ^ (s - s') * (10 : ℚ) ^ s' := by
    rw [← pow_add]
    congr 1
    omega
  rw [h10, mul_comm ((10:ℚ) ^ (s - s')) ((10:ℚ) ^ s')]
  exact mul_div_mul_right _ _ (by positivity)

/-- `Dec.add` computes the exact rational sum. -/
theorem Dec.value_add (a b : Dec) : (a.add b).value = a.value + b.value := by
  unfold Dec.add Dec.value
  push_cast
  rw [add_div, Dec.cast_div_pow a.mantissa a.scale _ (le_max_left a.scale b.scale),
    Dec.cast_div_pow b.mantissa b.scale _ (le_max_right a.scale b.scale)]

/-- `Dec.sub` computes the exact rational difference. -/
theorem Dec.value_sub (a b : Dec) : (a.sub b).value = a.value - b.value := by
  unfold Dec.sub Dec.value
  push_cast
  rw [sub_div, Dec.cast_div_pow a.mantissa a.scale _ (le_max_left a.scale b.scale),
    Dec.cast_div_pow b.mantissa b.scale _ (le_max_right a.scale b.scale)]

/-- `Dec.le` decides comparison of the exact rational values. -/
theorem Dec.le_iff (a b : Dec) : a.le b = true ↔ a.value ≤ b.value := by
  unfold Dec.le Dec.value
  rw [decide_eq_true_iff,
    ← Dec.cast_div_pow a.mantissa a.scale (max a.scale b.scale) (le_max_left a.scale b.scale),
    ← Dec.cast_div_pow b.mantissa b.scale (max a.scale b.scale) (le_max_right a.scale b.scale),
    div_le_div_iff_of_pos_right (by positivity)]
  norm_cast

/-- The value of a `Dec` is non-negative exactly when its mantissa is. -/
theorem Dec.value_nonneg_iff (d : Dec) : 0 ≤ d.value ↔ 0 ≤ d.mantissa := by
  unfold Dec.value
  rw [le_div_iff₀ (by positivity), zero_mul, Int.cast_nonneg]

/-- A `Dec` that fails the negativity check has non-negative value. -/
theorem Dec.not_sign_negative_value {d : Dec} (h : d.is_sign_negative = false) :
    0 ≤ d.value := by
  rw [Dec.value_nonneg_iff]
  unfold Dec.is_sign_negative at h
  simp only [decide_eq_false_iff_not, Int.not_lt] at h
  exact h

/-! ### Characterizations of the `Account` operations -/

/-- The numeric account invariant: `total == available + held` on the exact
values. -/
def Account.balancedQ (a : Account) : Prop :=
  a.total.value = a.available.value + a.held.value

/-- `Account.deposit` succeeds exactly on unlocked accounts, and then adds
the amount to `available` and `total`. -/
theorem Account.deposit_ok {a a' : Account} {amt : Dec}
    (h : a.deposit amt = .ok a') :
    a.locked = false ∧
      a' = { a with available := a.available.add amt, total := a.total.add amt } := by
  unfold Account.deposit at h
  split at h
  · exact absurd h (by simp)
  · rename_i hl
    exact ⟨by simpa using hl, by injection h with h'; exact h'.symm⟩

/-- `Account.withdraw` succeeds exactly on unlocked accounts with
`available >= amount`, and then subtracts from `available` and `total`. -/
theorem Account.withdraw_ok {a a' : Account} {amt : Dec}
    (h : a.withdraw amt = .ok a') :
    a.locked = false ∧ amt.le a.available = true ∧
      a' = { a with available := a.available.sub amt, total := a.total.sub amt } := by
  unfold Account.withdraw at h
  split at h
  · exact absurd h (by simp)
  · split at h
    · rename_i hl hge
      exact ⟨by simpa using hl, hge, by injection h with h'; exact h'.symm⟩
    · exact absurd h (by simp)

/-- `Account.apply_dispute` succeeds exactly on unlocked accounts with
`available >= amount`, and then moves the amount from `available` to
`held`. -/
theorem Account.apply_dispute_ok {a a' : Account} {amt : Dec}
    (h : a.apply_dispute amt = .ok a') :
    a.locked = false ∧ amt.le a.available = true ∧
      a' = { a with available := a.available.sub amt, held := a.held.add amt } := by
  unfold Account.apply_dispute at h
  split at h
  · exact absurd h (by simp)
  · split at h
    · rename_i hl hge
      exact ⟨by simpa using hl, hge, by injection h with h'; exact h'.symm⟩
    · exact absurd h (by simp)

/-- `Account.resolve_dispute` succeeds exactly on unlocked accounts with
`held >= amount`, and then moves the amount from `held` to `available`. -/
theorem Account.resolve_dispute_ok {a a' : Account} {amt : Dec}
    (h : a.resolve_dispute amt = .ok a') :
    a.locked = false ∧ amt.le a.held = true ∧
      a' = { a with held := a.held.sub amt, available := a.available.add amt } := by
  unfold Account.resolve_dispute at h
  split at h
  · exact absurd h (by simp)
  · split at h
    · rename_i hl hge
      exact ⟨by simpa using hl, hge, by injection h with h'; exact h'.symm⟩
    · exact absurd h (by simp)

/-- `Account.chargeback` succeeds exactly on unlocked accounts with
`held >= amount`, and then subtracts from `held` and `total` and locks the
account. -/
theorem Account.chargeback_ok {a a' : Account} {amt : Dec}
    (h : a.chargeback amt = .ok a') :
    a.locked = false ∧ amt.le a.held = true ∧
      a' = { a with total := a.total.sub amt, held := a.held.sub amt, locked := true } := by
  unfold Account.chargeback at h
  split at h
  · exact absurd h (by simp)
  · split at h
    · rename_i hl hge
      exact ⟨by simpa using hl, hge, by injection h with h'; exact h'.symm⟩
    · exact absurd h (by simp)

/-! ### Characterizations of the per-record handlers -/

/-- A successful `process_deposit` implies: the id was fresh, the record
carried a non-negative amount of valid precision, the account-level deposit
succeeded, and the record was inserted into the history. -/
theorem process_deposit_ok {r : Record} {acc acc' : Account}
    {txs txs' : Nat → Option Record}
    (h : process_deposit r acc txs = .ok (acc', txs')) :
    txs r.tx = none ∧
      ∃ amt, r.amount = some amt ∧ amt.is_sign_negative = false ∧
        has_valid_precision amt = true ∧ acc.deposit amt = .ok acc' ∧
        txs' = upd txs r.tx (some r) := by
  unfold process_deposit at h
  split at h
  · exact absurd h (by simp)
  · rename_i hdup
    split at h
    · rename_i amt hamt
      split at h
      · exact absurd h (by simp)
      · split at h
        · exact absurd h (by simp)
        · rename_i hneg hprec
          split at h
          · exact absurd h (by simp)
          · rename_i acc'' hdep
            injection h with h'
            injection h' with h1 h2
            refine ⟨by simpa using hdup, amt, hamt, by simpa using hneg, by simpa using hprec, ?_, h2.symm⟩
            rw [hdep, h1]
    · exact absurd h (by simp)

/-- A successful `process_withdrawal` implies the same shape as a successful
deposit, with the account-level withdraw in place of the deposit. -/
theorem process_withdrawal_ok {r : Record} {acc acc' : Account}
    {txs txs' : Nat → Option Record}
    (h : process_withdrawal r acc txs = .ok (acc', txs')) :
    txs r.tx = none ∧
      ∃ amt, r.amount = some amt ∧ amt.is_sign_negative = false ∧
        has_valid_precision amt = true ∧ acc.withdraw amt = .ok acc' ∧
        txs' = upd txs r.tx (some r) := by
  unfold process_withdrawal at h
  split at h
  · exact absurd h (by simp)
  · rename_i hdup
    split at h
    · rename_i amt hamt
      split at h
      · exact absurd h (by simp)
      · split at h
        · exact absurd h (by simp)
        · rename_i hneg hprec
          split at h
          · exact absurd h (by simp)
          · rename_i acc'' hdep
            injection h with h'
            injection h' with h1 h2
            refine ⟨by simpa using hdup, amt, hamt, by simpa using hneg, by simpa using hprec, ?_, h2.symm⟩
            rw [hdep, h1]
    · exact absurd h (by simp)

/-- A successful `process_dispute` implies: the id is in the history as a
deposit-typed record, it was not yet disputed, its stored amount was applied
as a hold, and the id was added to the dispute set. -/
theorem process_dispute_ok {r : Record} {acc acc' : Account}
    {txs : Nat → Option Record} {disp disp' : Nat → Bool}
    (h : process_dispute r acc txs disp = .ok (acc', disp')) :
    ∃ dtx amt, txs r.tx = some dtx ∧ strToLower dtx.tx_type = "deposit" ∧
      disp r.tx = false ∧ dtx.amount = some amt ∧
      acc.apply_dispute amt = .ok acc' ∧ disp' = upd disp r.tx true := by
  unfold process_dispute at h
  split at h
  · exact absurd h (by simp)
  · rename_i dtx hdtx
    split at h
    · exact absurd h (by simp)
    · rename_i hkind
      split at h
      · exact absurd h (by simp)
      · rename_i hdisp
        split at h
        · rename_i amt hamt
          split at h
          · exact absurd h (by simp)
          · rename_i acc'' hap
            injection h with h'
            injection h' with h1 h2
            refine ⟨dtx, amt, hdtx, by simpa using hkind, by simpa using hdisp, hamt, ?_, h2.symm⟩
            rw [hap, h1]
        · exact absurd h (by simp)

/-- A successful `process_resolve` implies: the id was under dispute, it is
in the history, its stored amount was released, and the id was removed from
the dispute set. -/
theorem process_resolve_ok {r : Record} {acc acc' : Account}
    {txs : Nat → Option Record} {disp disp' : Nat → Bool}
    (h : process_resolve r acc txs disp = .ok (acc', disp')) :
    ∃ dtx amt, disp r.tx = true ∧ txs r.tx = some dtx ∧ dtx.amount = some amt ∧
      acc.resolve_dispute amt = .ok acc' ∧ disp' = upd disp r.tx false := by
  unfold process_resolve at h
  split at h
  · exact absurd h (by simp)
  · rename_i hdisp
    split at h
    · exact absurd h (by simp)
    · rename_i dtx hdtx
      split at h
      · rename_i amt hamt
        split at h
        · exact absurd h (by simp)
        · rename_i acc'' hres
          injection h with h'
          injection h' with h1 h2
          refine ⟨dtx, amt, by simpa using hdisp, hdtx, hamt, ?_, h2.symm⟩
          rw [hres, h1]
      · exact absurd h (by simp)

/-- A successful `process_chargeback` implies: the id was under dispute, it
is in the history, its stored amount was forfeited (locking the account),
and the id was removed from the dispute set. -/
theorem process_chargeback_ok {r : Record} {acc acc' : Account}
    {txs : Nat → Option Record} {disp disp' : Nat → Bool}
    (h : process_chargeback r acc txs disp = .ok (acc', disp')) :
    ∃ dtx amt, disp r.tx = true ∧ txs r.tx = some dtx ∧ dtx.amount = some amt ∧
      acc.chargeback amt = .ok acc' ∧ disp' = upd disp r.tx false := by
  unfold process_chargeback at h
  split at h
  · exact absurd h (by simp)
  · rename_i hdisp
    split at h
    · exact absurd h (by simp)
    · rename_i dtx hdtx
      split at h
      · rename_i amt hamt
        split at h
        · exact absurd h (by simp)
        · rename_i acc'' hcb
          injection h with h'
          injection h' with h1 h2
          refine ⟨dtx, amt, by simpa using hdisp, hdtx, hamt, ?_, h2.symm⟩
          rw [hcb, h1]
      · exact absurd h (by simp)

/-! ### Router-level lemmas -/

/-- Every call of `process_transaction` either fails and returns the state
untouched, or succeeds: the `?`-propagation structure of the source means no
error path ever commits a mutation. -/
theorem process_transaction_shape (s : RState) (r : Record) :
    (∃ e, process_transaction s r = (s, Except.error e)) ∨
      (process_transaction s r).2 = Except.ok () := by
  unfold process_transaction
  repeat' split
  all_goals first
  | exact Or.inl ⟨_, rfl⟩
  | exact Or.inr rfl

/-- A rejected record leaves the whole state unchanged. -/
theorem err_state_eq {s : RState} {r : Record} {e : ErrKind}
    (h : (process_transaction s r).2 = .error e) :
    (process_transaction s r).1 = s := by
  rcases process_transaction_shape s r with ⟨e', he⟩ | hok
  · rw [he]
  · rw [hok] at h
    exact absurd h (by simp)

/-- Processing a record never touches the account of any other client. -/
theorem accounts_frame (s : RState) (r : Record) (c : Nat) (hc : c ≠ r.client) :
    (process_transaction s r).1.accounts c = s.accounts c := by
  unfold process_transaction
  repeat' split
  all_goals simp [upd, hc]

/-- An entry already in the transaction history survives any processed
record unchanged: history entries are inserted only under fresh ids, never
removed or overwritten. -/
theorem transactions_keep {s : RState} {r : Record} {t : Nat} {h0 : Record}
    (h : s.transactions t = some h0) :
    (process_transaction s r).1.transactions t = some h0 := by
  unfold process_transaction
  repeat' split
  all_goals try exact h
  all_goals rename_i hok
  · rcases process_deposit_ok hok with ⟨hfresh, _, _, _, _, _, htxs⟩
    by_cases ht : t = r.tx
    · rw [ht] at h; rw [h] at hfresh; exact absurd hfresh (by simp)
    · simp only [htxs, upd, if_neg ht]; exact h
  · rcases process_withdrawal_ok hok with ⟨hfresh, _, _, _, _, _, htxs⟩
    by_cases ht : t = r.tx
    · rw [ht] at h; rw [h] at hfresh; exact absurd hfresh (by simp)
    · simp only [htxs, upd, if_neg ht]; exact h

/-- On an account that is already locked, every record for that client is
rejected and the state is returned untouched: every success path goes
through an `Account` operation, and all five of them check `locked`
first. -/
theorem locked_step {s : RState} {r : Record} {a : Account}
    (hacc : s.accounts r.client = some a) (hl : a.locked = true) :
    ∃ e, process_transaction s r = (s, Except.error e) := by
  rcases process_transaction_shape s r with h | hok
  · exact h
  · exfalso
    unfold process_transaction at hok
    split at hok
    · simp at hok
    · split at hok
      · simp at hok
      · rename_i acc' txs' heq
        rcases process_deposit_ok heq with ⟨-, amt, -, -, -, hdep, -⟩
        have hlf := (Account.deposit_ok hdep).1
        rw [hacc] at hlf
        simp only [Option.getD_some] at hlf
        rw [hl] at hlf
        exact absurd hlf (by simp)
    · split at hok
      · simp at hok
      · rename_i acc heqa
        split at hok
        · simp at hok
        · rename_i acc' txs' heq
          rcases process_withdrawal_ok heq with ⟨-, amt, -, -, -, hop, -⟩
          have hlf := (Account.withdraw_ok hop).1
          rw [hacc] at heqa
          injection heqa with heqa
          rw [heqa] at hl
          rw [hl] at hlf
          exact absurd hlf (by simp)
    · split at hok
      · simp at hok
      · rename_i acc heqa
        split at hok
        · simp at hok
        · rename_i acc' disp' heq
          rcases process_dispute_ok heq with ⟨dtx, amt, -, -, -, -, hop, -⟩
          have hlf := (Account.apply_dispute_ok hop).1
          rw [hacc] at heqa
          injection heqa with heqa
          rw [heqa] at hl
          rw [hl] at hlf
          exact absurd hlf (by simp)
    · split at hok
      · simp at hok
      · rename_i acc heqa
        split at hok
        · simp at hok
        · rename_i acc' disp' heq
          rcases process_resolve_ok heq with ⟨dtx, amt, -, -, -, hop, -⟩
          have hlf := (Account.resolve_dispute_ok hop).1
          rw [hacc] at heqa
          injection heqa with heqa
          rw [heqa] at hl
          rw [hl] at hlf
          exact absurd hlf (by simp)
    · split at hok
      · simp at hok
      · rename_i acc heqa
        split at hok
        · simp at hok
        · rename_i acc' disp' heq
          rcases process_chargeback_ok heq with ⟨dtx, amt, -, -, -, hop, -⟩
          have hlf := (Account.chargeback_ok hop).1
          rw [hacc] at heqa
          injection heqa with heqa
          rw [heqa] at hl
          rw [hl] at hlf
          exact absurd hlf (by simp)

/-! ### Invariants of reachable states -/

/-- Fold-invariance: a property preserved by every single processed record
holds after processing any list of records. -/
theorem processList_inv (P : RState → Prop)
    (hstep : ∀ s r, P s → P (process_transaction s r).1) :
    ∀ (rs : List Record) (s : RState), P s → P (processList s rs) := by
  intro rs
  induction rs with
  | nil => intro s h; exact h
  | cons r rs ih =>
    intro s h
    simpa [processList] using ih (process_transaction s r).1 (hstep s r h)

/-- A fresh account is balanced. -/
theorem Account.new_balancedQ : Account.new.balancedQ := by
  simp [Account.new, Account.balancedQ, Dec.value]

/-- `Account.deposit` preserves `total == available + held`. -/
theorem Account.deposit_balancedQ {a a' : Account} {amt : Dec}
    (h : a.deposit amt = .ok a') (hb : a.balancedQ) : a'.balancedQ := by
  obtain ⟨-, rfl⟩ := Account.deposit_ok h
  unfold Account.balancedQ at hb ⊢
  simp only [Dec.value_add]
  rw [hb]
  ring

/-- `Account.withdraw` preserves `total == available + held`. -/
theorem Account.withdraw_balancedQ {a a' : Account} {amt : Dec}
    (h : a.withdraw amt = .ok a') (hb : a.balancedQ) : a'.balancedQ := by
  obtain ⟨-, -, rfl⟩ := Account.withdraw_ok h
  unfold Account.balancedQ at hb ⊢
  simp only [Dec.value_sub]
  rw [hb]
  ring

/-- `Account.apply_dispute` preserves `total == available + held`. -/
theorem Account.apply_dispute_balancedQ {a a' : Account} {amt : Dec}
    (h : a.apply_dispute amt = .ok a') (hb : a.balancedQ) : a'.balancedQ := by
  obtain ⟨-, -, rfl⟩ := Account.apply_dispute_ok h
  unfold Account.balancedQ at hb ⊢
  simp only [Dec.value_sub, Dec.value_add]
  rw [hb]
  ring

/-- `Account.resolve_dispute` preserves `total == available + held`. -/
theorem Account.resolve_dispute_balancedQ {a a' : Account} {amt : Dec}
    (h : a.resolve_dispute amt = .ok a') (hb : a.balancedQ) : a'.balancedQ := by
  obtain ⟨-, -, rfl⟩ := Account.resolve_dispute_ok h
  unfold Account.balancedQ at hb ⊢
  simp only [Dec.value_sub, Dec.value_add]
  rw [hb]
  ring

/-- `Account.chargeback` preserves `total == available + held`. -/
theorem Account.chargeback_balancedQ {a a' : Account} {amt : Dec}
    (h : a.chargeback amt = .ok a') (hb : a.balancedQ) : a'.balancedQ := by
  obtain ⟨-, -, rfl⟩ := Account.chargeback_ok h
  unfold Account.balancedQ at hb ⊢
  simp only [Dec.value_sub, Dec.value_add]
  rw [hb]
  ring

/-- One processed record preserves "every account satisfies
`total == available + held`". -/
theorem balancedQ_step {s : RState} {r : Record}
    (hs : ∀ c a, s.accounts c = some a → a.balancedQ) :
    ∀ c a, (process_transaction s r).1.accounts c = some a → a.balancedQ := by
  intro c a ha
  unfold process_transaction at ha
  split at ha
  · exact hs c a ha
  · split at ha
    · exact hs c a ha
    · rename_i acc' txs' heq
      simp only [upd] at ha
      by_cases hc : c = r.client
      · rw [if_pos hc] at ha
        injection ha with ha
        subst ha
        rcases process_deposit_ok heq with ⟨-, amt, -, -, -, hdep, -⟩
        have hbase : ((s.accounts r.client).getD Account.new).balancedQ := by
          cases hsc : s.accounts r.client with
          | none => simpa using Account.new_balancedQ
          | some a0 => simpa using hs r.client a0 hsc
        exact Account.deposit_balancedQ hdep hbase
      · rw [if_neg hc] at ha
        exact hs c a ha
  · split at ha
    · exact hs c a ha
    · rename_i acc heqa
      split at ha
      · exact hs c a ha
      · rename_i acc' txs' heq
        simp only [upd] at ha
        by_cases hc : c = r.client
        · rw [if_pos hc] at ha
          injection ha with ha
          subst ha
          rcases process_withdrawal_ok heq with ⟨-, amt, -, -, -, hop, -⟩
          exact Account.withdraw_balancedQ hop (hs r.client acc heqa)
        · rw [if_neg hc] at ha
          exact hs c a ha
  · split at ha
    · exact hs c a ha
    · rename_i acc heqa
      split at ha
      · exact hs c a ha
      · rename_i acc' disp' heq
        simp only [upd] at ha
        by_cases hc : c = r.client
        · rw [if_pos hc] at ha
          injection ha with ha
          subst ha
          rcases process_dispute_ok heq with ⟨dtx, amt, -, -, -, -, hop, -⟩
          exact Account.apply_dispute_balancedQ hop (hs r.client acc heqa)
        · rw [if_neg hc] at ha
          exact hs c a ha
  · split at ha
    · exact hs c a ha
    · rename_i acc heqa
      split at ha
      · exact hs c a ha
      · rename_i acc' disp' heq
        simp only [upd] at ha
        by_cases hc : c = r.client
        · rw [if_pos hc] at ha
          injection ha with ha
          subst ha
          rcases process_resolve_ok heq with ⟨dtx, amt, -, -, -, hop, -⟩
          exact Account.resolve_dispute_balancedQ hop (hs r.client acc heqa)
        · rw [if_neg hc] at ha
          exact hs c a ha
  · split at ha
    · exact hs c a ha
    · rename_i acc heqa
      split at ha
      · exact hs c a ha
      · rename_i acc' disp' heq
        simp only [upd] at ha
        by_cases hc : c = r.client
        · rw [if_pos hc] at ha
          injection ha with ha
          subst ha
          rcases process_chargeback_ok heq with ⟨dtx, amt, -, -, -, hop, -⟩
          exact Account.chargeback_balancedQ hop (hs r.client acc heqa)
        · rw [if_neg hc] at ha
          exact hs c a ha

/-- The non-negativity invariant of the whole state: every account has
non-negative available funds, and every amount stored in the transaction
history is non-negative (deposits and withdrawals are rejected as
`NegativeAmount` before insertion otherwise). -/
def GoodState (s : RState) : Prop :=
  (∀ c a, s.accounts c = some a → 0 ≤ a.available.value) ∧
  (∀ t rec d, s.transactions t = some rec → rec.amount = some d → 0 ≤ d.value)

/-- The empty initial state satisfies the non-negativity invariant. -/
theorem GoodState_init : GoodState initState := by
  constructor
  · intro c a ha
    exact absurd ha (by simp [initState])
  · intro t rec d htr
    exact absurd htr (by simp [initState])

/-- Depositing a non-negative amount keeps `available` non-negative. -/
theorem Account.deposit_nonneg {a a' : Account} {amt : Dec}
    (h : a.deposit amt = .ok a') (hamt : 0 ≤ amt.value)
    (hav : 0 ≤ a.available.value) : 0 ≤ a'.available.value := by
  obtain ⟨-, rfl⟩ := Account.deposit_ok h
  simp only [Dec.value_add]
  exact add_nonneg hav hamt

/-- A successful withdrawal leaves `available` non-negative (the guard
`available >= amount` ensures it). -/
theorem Account.withdraw_nonneg {a a' : Account} {amt : Dec}
    (h : a.withdraw amt = .ok a') : 0 ≤ a'.available.value := by
  obtain ⟨-, hge, rfl⟩ := Account.withdraw_ok h
  rw [Dec.le_iff] at hge
  simp only [Dec.value_sub]
  linarith

/-- A successful hold leaves `available` non-negative (the guard
`available >= amount` ensures it). -/
theorem Account.apply_dispute_nonneg {a a' : Account} {amt : Dec}
    (h : a.apply_dispute amt = .ok a') : 0 ≤ a'.available.value := by
  obtain ⟨-, hge, rfl⟩ := Account.apply_dispute_ok h
  rw [Dec.le_iff] at hge
  simp only [Dec.value_sub]
  linarith

/-- Releasing a non-negative amount keeps `available` non-negative. -/
theorem Account.resolve_dispute_nonneg {a a' : Account} {amt : Dec}
    (h : a.resolve_dispute amt = .ok a') (hamt : 0 ≤ amt.value)
    (hav : 0 ≤ a.available.value) : 0 ≤ a'.available.value := by
  obtain ⟨-, -, rfl⟩ := Account.resolve_dispute_ok h
  simp only [Dec.value_add]
  exact add_nonneg hav hamt

/-- A chargeback does not change `available`. -/
theorem Account.chargeback_nonneg {a a' : Account} {amt : Dec}
    (h : a.chargeback amt = .ok a') (hav : 0 ≤ a.available.value) :
    0 ≤ a'.available.value := by
  obtain ⟨-, -, rfl⟩ := Account.chargeback_ok h
  exact hav

/-- One processed record preserves the non-negativity invariant. -/
theorem good_step {s : RState} {r : Record} (hs : GoodState s) :
    GoodState (process_transaction s r).1 := by
  obtain ⟨hsa, hst⟩ := hs
  unfold process_transaction
  split
  · exact ⟨hsa, hst⟩
  · split
    · exact ⟨hsa, hst⟩
    · rename_i acc' txs' heq
      rcases process_deposit_ok heq with ⟨-, amt, hramt, hneg, -, hdep, htxs⟩
      constructor
      · intro c a ha
        simp only [upd] at ha
        by_cases hc : c = r.client
        · rw [if_pos hc] at ha
          injection ha with ha
          subst ha
          have hav : 0 ≤ ((s.accounts r.client).getD Account.new).available.value := by
            cases hsc : s.accounts r.client with
            | none => simp [Account.new, Dec.value]
            | some a0 => simpa using hsa r.client a0 hsc
          exact Account.deposit_nonneg hdep (Dec.not_sign_negative_value hneg) hav
        · rw [if_neg hc] at ha
          exact hsa c a ha
      · intro t rec d htr hd
        simp only [htxs, upd] at htr
        by_cases ht : t = r.tx
        · rw [if_pos ht] at htr
          injection htr with htr
          subst htr
          rw [hramt] at hd
          injection hd with hd
          subst hd
          exact Dec.not_sign_negative_value hneg
        · rw [if_neg ht] at htr
          exact hst t rec d htr hd
  · split
    · exact ⟨hsa, hst⟩
    · rename_i acc heqa
      split
      · exact ⟨hsa, hst⟩
      · rename_i acc' txs' heq
        rcases process_withdrawal_ok heq with ⟨-, amt, hramt, hneg, -, hop, htxs⟩
        constructor
        · intro c a ha
          simp only [upd] at ha
          by_cases hc : c = r.client
          · rw [if_pos hc] at ha
            injection ha with ha
            subst ha
            exact Account.withdraw_nonneg hop
          · rw [if_neg hc] at ha
            exact hsa c a ha
        · intro t rec d htr hd
          simp only [htxs, upd] at htr
          by_cases ht : t = r.tx
          · rw [if_pos ht] at htr
            injection htr with htr
            subst htr
            rw [hramt] at hd
            injection hd with hd
            subst hd
            exact Dec.not_sign_negative_value hneg
          · rw [if_neg ht] at htr
            exact hst t rec d htr hd
  · split
    · exact ⟨hsa, hst⟩
    · rename_i acc heqa
      split
      · exact ⟨hsa, hst⟩
      · rename_i acc' disp' heq
        rcases process_dispute_ok heq with ⟨dtx, amt, -, -, -, -, hop, -⟩
        constructor
        · intro c a ha
          simp only [upd] at ha
          by_cases hc : c = r.client
          · rw [if_pos hc] at ha
            injection ha with ha
            subst ha
            exact Account.apply_dispute_nonneg hop
          · rw [if_neg hc] at ha
            exact hsa c a ha
        · exact hst
  · split
    · exact ⟨hsa, hst⟩
    · rename_i acc heqa
      split
      · exact ⟨hsa, hst⟩
      · rename_i acc' disp' heq
        rcases process_resolve_ok heq with ⟨dtx, amt, -, hdtx, hdamt, hop, -⟩
        constructor
        · intro c a ha
          simp only [upd] at ha
          by_cases hc : c = r.client
          · rw [if_pos hc] at ha
            injection ha with ha
            subst ha
            exact Account.resolve_dispute_nonneg hop
              (hst r.tx dtx amt hdtx hdamt) (hsa r.client acc heqa)
          · rw [if_neg hc] at ha
            exact hsa c a ha
        · exact hst
  · split
    · exact ⟨hsa, hst⟩
    · rename_i acc heqa
      split
      · exact ⟨hsa, hst⟩
      · rename_i acc' disp' heq
        rcases process_chargeback_ok heq with ⟨dtx, amt, -, -, -, hop, -⟩
        constructor
        · intro c a ha
          simp only [upd] at ha
          by_cases hc : c = r.client
          · rw [if_pos hc] at ha
            injection ha with ha
            subst ha
            exact Account.chargeback_nonneg hop (hsa r.client acc heqa)
          · rw [if_neg hc] at ha
            exact hsa c a ha
        · exact hst

/-! ### The claims -/

def c1NegRec : Record := { tx_type := "deposit", client := 7, tx := 1, amount := some ⟨-5, 0⟩ }

/-- C1 counterexample: a Deposit with a negative amount for client 7, who has
no account, is rejected with `NegativeAmount` and NO account is created for
client 7 — the claim asserts an account with zero balances must exist. -/
theorem C1_counterexample :
    (process_transaction initState c1NegRec).2 = .error .negativeAmount ∧
    (process_transaction initState c1NegRec).1.accounts 7 = none := by
  constructor <;> decide

/-- C1 (amended): for a Deposit record naming a client with no existing
account, the account is created when and only when the deposit succeeds: a
rejected deposit leaves the client without an account. -/
theorem C1_amended_thm (s : RState) (r : Record)
    (hdep : TxType.from_str r.tx_type = some TxType.deposit)
    (hnone : s.accounts r.client = none) :
    ((process_transaction s r).2 = .ok () →
      ∃ a, (process_transaction s r).1.accounts r.client = some a) ∧
    ∀ e, (process_transaction s r).2 = .error e →
      (process_transaction s r).1.accounts r.client = none := by
  constructor
  · intro hok
    simp only [process_transaction, hdep] at hok ⊢
    rcases hd : process_deposit r ((s.accounts r.client).getD Account.new) s.transactions with
      e | ⟨acc', txs'⟩
    · rw [hd] at hok
      exact absurd hok (by simp)
    · exact ⟨acc', by simp [upd]⟩
  · intro e herr
    rw [err_state_eq herr]
    exact hnone

/-- C1 witness: the amended theorem evaluated on the concrete rejected
deposit. -/
theorem C1_witness :
    (process_transaction initState c1NegRec).1.accounts c1NegRec.client = none :=
  (C1_amended_thm initState c1NegRec (by decide) (by decide)).2 .negativeAmount (by decide)

/-- Modelled from the spec's wording (section 4.1), for comparison with the
source's `has_valid_precision`: the exact value of `d` has at most 4
fractional digits, i.e. `value * 10^4` is an integer. -/
def hasAtMost4FracDigits (d : Dec) : Prop := ∃ n : ℤ, d.value * 10 ^ 4 = (n : ℚ)

/-- C2 counterexample: the decimal written `1.00000` (mantissa 100000, scale
5) has exact value 1, hence at most 4 fractional digits, yet
`has_valid_precision` returns false because it tests the stored scale. -/
theorem C2_counterexample :
    has_valid_precision ⟨100000, 5⟩ = false ∧ hasAtMost4FracDigits ⟨100000, 5⟩ := by
  constructor
  · decide
  · exact ⟨10000, by norm_num [Dec.value]⟩

/-- C2 (amended): `has_valid_precision` returns true iff the stored scale is
at most 4; this implies the exact value has at most 4 fractional digits, but
the converse direction of the claim fails (trailing zeros count). -/
theorem C2_amended_thm (d : Dec) :
    (has_valid_precision d = true ↔ d.scale ≤ 4) ∧
    (has_valid_precision d = true → hasAtMost4FracDigits d) := by
  constructor
  · unfold has_valid_precision
    exact decide_eq_true_iff
  · intro h
    rw [has_valid_precision, decide_eq_true_iff] at h
    refine ⟨d.mantissa * 10 ^ (4 - d.scale), ?_⟩
    unfold Dec.value
    rw [← Dec.cast_div_pow d.mantissa d.scale 4 h, div_mul_cancel₀ _ (by positivity)]
    push_cast
    ring

/-- C2 witness: the amended theorem evaluated on a scale-4 decimal. -/
theorem C2_witness : hasAtMost4FracDigits ⟨12345, 4⟩ :=
  (C2_amended_thm ⟨12345, 4⟩).2 (by decide)

/-- C3 counterexample: a locked account with `held = 10 >= 5 = amount`, on
which `Account.chargeback` fails with `LockedAccount` — the claim asserts it
must succeed regardless of the locked flag. -/
theorem C3_counterexample :
    (Dec.le ⟨5, 0⟩ (Account.mk ⟨0, 0⟩ ⟨10, 0⟩ ⟨10, 0⟩ true).held = true) ∧
    Account.chargeback (Account.mk ⟨0, 0⟩ ⟨10, 0⟩ ⟨10, 0⟩ true) ⟨5, 0⟩ =
      .error .lockedAccount := by
  constructor <;> decide

/-- C3 (amended): the account-level chargeback has TWO preconditions — not
locked (checked first, failing `LockedAccount`) and `held >= amount`
(failing `InsufficientHeld`); on success it debits `held` and `total` and
sets `locked`. -/
theorem C3_amended_thm (a : Account) (amt : Dec) :
    (a.locked = true → a.chargeback amt = .error .lockedAccount) ∧
    (a.locked = false → amt.le a.held = true →
      a.chargeback amt =
        .ok { a with total := a.total.sub amt, held := a.held.sub amt, locked := true }) ∧
    (a.locked = false → amt.le a.held = false →
      a.chargeback amt = .error .insufficientHeld) := by
  refine ⟨fun hl => ?_, fun hl hge => ?_, fun hl hlt => ?_⟩
  · simp [Account.chargeback, hl]
  · simp [Account.chargeback, hl, hge]
  · simp [Account.chargeback, hl, hlt]

/-- C3 witness: the amended theorem evaluated on an unlocked account with
sufficient held funds. -/
theorem C3_witness :
    Account.chargeback (Account.mk ⟨1, 0⟩ ⟨3, 0⟩ ⟨4, 0⟩ false) ⟨2, 0⟩ =
      .ok (Account.mk ⟨1, 0⟩ (Dec.sub ⟨3, 0⟩ ⟨2, 0⟩) (Dec.sub ⟨4, 0⟩ ⟨2, 0⟩) true) :=
  (C3_amended_thm (Account.mk ⟨1, 0⟩ ⟨3, 0⟩ ⟨4, 0⟩ false) ⟨2, 0⟩).2.1 rfl (by decide)

/-- C4: in every state reachable from the empty initial state, every
account satisfies `total == available + held` on the exact values. -/
theorem C4_total_eq (rs : List Record) (c : Nat) (a : Account)
    (h : (processList initState rs).accounts c = some a) :
    a.total.value = a.available.value + a.held.value := by
  have hbase : ∀ c a, initState.accounts c = some a → a.balancedQ := by
    intro c a ha
    exact absurd ha (by simp [initState])
  exact processList_inv (fun st => ∀ c a, st.accounts c = some a → a.balancedQ)
    (fun st r hst => balancedQ_step hst) rs initState hbase c a h

/-- C4 witness: the invariant theorem evaluated after one concrete deposit. -/
theorem C4_witness :
    (Account.mk (Dec.add ⟨0, 0⟩ ⟨75, 1⟩) ⟨0, 0⟩ (Dec.add ⟨0, 0⟩ ⟨75, 1⟩) false).total.value =
      (Account.mk (Dec.add ⟨0, 0⟩ ⟨75, 1⟩) ⟨0, 0⟩ (Dec.add ⟨0, 0⟩ ⟨75, 1⟩) false).available.value +
      (Account.mk (Dec.add ⟨0, 0⟩ ⟨75, 1⟩) ⟨0, 0⟩ (Dec.add ⟨0, 0⟩ ⟨75, 1⟩) false).held.value :=
  C4_total_eq [Record.mk "deposit" 1 1 (some ⟨75, 1⟩)] 1 _ (by decide)

/-- C5: once a client's account is locked, its entry survives any further
record sequence completely unchanged, and any single further record naming
that client is rejected with the state untouched. -/
theorem C5_locked_frozen (s : RState) (c : Nat) (a : Account) (rs : List Record)
    (hacc : s.accounts c = some a) (hl : a.locked = true) :
    (processList s rs).accounts c = some a ∧
    ∀ r : Record, r.client = c →
      ∃ e, process_transaction (processList s rs) r = (processList s rs, Except.error e) := by
  have hkeep : (processList s rs).accounts c = some a := by
    refine processList_inv (fun st => st.accounts c = some a) ?_ rs s hacc
    intro st r hst
    by_cases hc : c = r.client
    · subst hc
      rcases locked_step hst hl with ⟨e, he⟩
      rw [he]
      exact hst
    · rw [accounts_frame st r c hc]
      exact hst
  refine ⟨hkeep, fun r hrc => ?_⟩
  have hacc' : (processList s rs).accounts r.client = some a := by
    rw [hrc]
    exact hkeep
  exact locked_step hacc' hl

/-- C5 witness: after a chargeback locks client 1's account, a further
deposit leaves the account entry exactly as it was. -/
theorem C5_witness :
    (processList (processList initState
        [Record.mk "deposit" 1 1 (some ⟨10, 0⟩),
         Record.mk "dispute" 1 1 none,
         Record.mk "chargeback" 1 1 none])
      [Record.mk "deposit" 1 5 (some ⟨7, 0⟩)]).accounts 1 =
      some (Account.mk (Dec.sub ⟨10, 0⟩ ⟨10, 0⟩) (Dec.sub ⟨10, 0⟩ ⟨10, 0⟩)
        (Dec.sub ⟨10, 0⟩ ⟨10, 0⟩) true) :=
  (C5_locked_frozen _ 1 _ _ (by decide) (by decide)).1

/-- C6: in every state reachable from the empty initial state, every
account's available funds are non-negative. -/
theorem C6_available_nonneg (rs : List Record) (c : Nat) (a : Account)
    (h : (processList initState rs).accounts c = some a) : 0 ≤ a.available.value :=
  (processList_inv GoodState (fun st r hs => good_step hs) rs initState GoodState_init).1 c a h

/-- C6 witness: the invariant theorem evaluated after one concrete deposit. -/
theorem C6_witness :
    0 ≤ (Account.mk (Dec.add ⟨0, 0⟩ ⟨75, 1⟩) ⟨0, 0⟩ (Dec.add ⟨0, 0⟩ ⟨75, 1⟩) false).available.value :=
  C6_available_nonneg [Record.mk "deposit" 2 1 (some ⟨75, 1⟩)] 2 _ (by decide)

/-- C7 counterexample: with tx 1 recorded in History (client 1's deposit), a
withdrawal by accountless client 2 reusing tx 1 is rejected with
`UnknownAccount`, not `DuplicateTransactionId` as the claim asserts. -/
theorem C7_counterexample :
    (process_transaction initState (Record.mk "deposit" 1 1 (some ⟨5, 0⟩))).1.transactions 1 =
      some (Record.mk "deposit" 1 1 (some ⟨5, 0⟩)) ∧
    (process_transaction
        (process_transaction initState (Record.mk "deposit" 1 1 (some ⟨5, 0⟩))).1
        (Record.mk "withdrawal" 2 1 (some ⟨3, 0⟩))).2 = .error .unknownAccount := by
  constructor <;> decide

/-- C7 (amended): History entries are never removed or overwritten; a
Deposit reusing a recorded id always fails `DuplicateTransactionId`, and a
Withdrawal reusing a recorded id fails `DuplicateTransactionId` when the
client's account exists and `UnknownAccount` otherwise. -/
theorem C7_amended_thm (s : RState) (r : Record) (t : Nat) (h0 : Record)
    (hist : s.transactions t = some h0) :
    (process_transaction s r).1.transactions t = some h0 ∧
    (r.tx = t → TxType.from_str r.tx_type = some TxType.deposit →
      (process_transaction s r).2 = .error .duplicateTxId) ∧
    (r.tx = t → TxType.from_str r.tx_type = some TxType.withdrawal →
      (∀ acc, s.accounts r.client = some acc →
        (process_transaction s r).2 = .error .duplicateTxId) ∧
      (s.accounts r.client = none →
        (process_transaction s r).2 = .error .unknownAccount)) := by
  refine ⟨transactions_keep hist, ?_, ?_⟩
  · intro hrt hty
    have hsome : (s.transactions r.tx).isSome = true := by
      rw [hrt, hist]
      rfl
    have hd : process_deposit r ((s.accounts r.client).getD Account.new) s.transactions
        = .error .duplicateTxId := by
      unfold process_deposit
      rw [if_pos hsome]
    simp [process_transaction, hty, hd]
  · intro hrt hty
    have hsome : (s.transactions r.tx).isSome = true := by
      rw [hrt, hist]
      rfl
    constructor
    · intro acc hacc
      have hw : process_withdrawal r acc s.transactions = .error .duplicateTxId := by
        unfold process_withdrawal
        rw [if_pos hsome]
      simp [process_transaction, hty, hacc, hw]
    · intro hnone
      simp [process_transaction, hty, hnone]

/-- C7 witness: a repeated deposit id is rejected as a duplicate. -/
theorem C7_witness :
    (process_transaction
        (process_transaction initState (Record.mk "deposit" 3 4 (some ⟨5, 0⟩))).1
        (Record.mk "deposit" 3 4 (some ⟨5, 0⟩))).2 = .error .duplicateTxId :=
  ((C7_amended_thm _ (Record.mk "deposit" 3 4 (some ⟨5, 0⟩)) 4
      (Record.mk "deposit" 3 4 (some ⟨5, 0⟩)) (by decide)).2.1 rfl (by decide))

/-- C8 counterexample: tx 2 is a Withdrawal in History, and a Dispute for it
naming accountless client 2 fails with `UnknownAccount`, not
`NotDisputable` as the claim asserts for every dispute of a non-deposit. -/
theorem C8_counterexample :
    (processList initState
        [Record.mk "deposit" 1 1 (some ⟨10, 0⟩),
         Record.mk "withdrawal" 1 2 (some ⟨3, 0⟩)]).transactions 2 =
      some (Record.mk "withdrawal" 1 2 (some ⟨3, 0⟩)) ∧
    (process_transaction
        (processList initState
          [Record.mk "deposit" 1 1 (some ⟨10, 0⟩),
           Record.mk "withdrawal" 1 2 (some ⟨3, 0⟩)])
        (Record.mk "dispute" 2 2 none)).2 = .error .unknownAccount := by
  constructor <;> decide

/-- C8 (amended): for a Dispute whose tx is in History with a non-Deposit
kind, when the record's client has an account the dispute fails
`NotDisputable` with the state untouched; when the client has no account it
fails `UnknownAccount`, also with the state untouched. -/
theorem C8_amended_thm (s : RState) (r : Record) (h0 : Record)
    (hty : TxType.from_str r.tx_type = some TxType.dispute)
    (hist : s.transactions r.tx = some h0)
    (hkind : strToLower h0.tx_type ≠ "deposit") :
    ((∃ acc, s.accounts r.client = some acc) →
      process_transaction s r = (s, .error .notDisputable)) ∧
    (s.accounts r.client = none →
      process_transaction s r = (s, .error .unknownAccount)) := by
  constructor
  · rintro ⟨acc, hacc⟩
    have hd : process_dispute r acc s.transactions s.disputes = .error .notDisputable := by
      unfold process_dispute
      rw [hist]
      simp [hkind]
    simp [process_transaction, hty, hacc, hd]
  · intro hnone
    simp [process_transaction, hty, hnone]

/-- C8 witness: disputing a withdrawal id for an existing client fails
`NotDisputable` and leaves the state unchanged. -/
theorem C8_witness :
    process_transaction
        (processList initState
          [Record.mk "deposit" 1 1 (some ⟨10, 0⟩),
           Record.mk "withdrawal" 1 2 (some ⟨3, 0⟩)])
        (Record.mk "dispute" 1 2 none) =
      (processList initState
          [Record.mk "deposit" 1 1 (some ⟨10, 0⟩),
           Record.mk "withdrawal" 1 2 (some ⟨3, 0⟩)],
        .error .notDisputable) :=
  (C8_amended_thm _ (Record.mk "dispute" 1 2 none) (Record.mk "withdrawal" 1 2 (some ⟨3, 0⟩))
      (by decide) (by decide) (by decide)).1
    ⟨Account.mk (Dec.sub (Dec.add ⟨0, 0⟩ ⟨10, 0⟩) ⟨3, 0⟩) ⟨0, 0⟩
        (Dec.sub (Dec.add ⟨0, 0⟩ ⟨10, 0⟩) ⟨3, 0⟩) false, by decide⟩

/-- C9: rejection is idempotent — a record rejected with kind `k` leaves the
state unchanged, and re-processing the same record immediately afterwards is
rejected with the same kind `k` and again leaves the state unchanged. -/
theorem C9_reject_idempotent (s : RState) (r : Record) (k : ErrKind)
    (h : (process_transaction s r).2 = .error k) :
    (process_transaction s r).1 = s ∧
    (process_transaction (process_transaction s r).1 r).2 = .error k ∧
    (process_transaction (process_transaction s r).1 r).1 = s := by
  have hs := err_state_eq h
  refine ⟨hs, ?_, ?_⟩
  · rw [hs]
    exact h
  · rw [hs]
    exact hs

/-- C9 witness: a withdrawal for a non-existent client is rejected twice
with `UnknownAccount`, with no state change either time. -/
theorem C9_witness :
    (process_transaction initState (Record.mk "withdrawal" 9 1 (some ⟨1, 0⟩))).1 = initState ∧
    (process_transaction (process_transaction initState (Record.mk "withdrawal" 9 1 (some ⟨1, 0⟩))).1
      (Record.mk "withdrawal" 9 1 (some ⟨1, 0⟩))).2 = .error .unknownAccount ∧
    (process_transaction (process_transaction initState (Record.mk "withdrawal" 9 1 (some ⟨1, 0⟩))).1
      (Record.mk "withdrawal" 9 1 (some ⟨1, 0⟩))).1 = initState :=
  C9_reject_idempotent initState (Record.mk "withdrawal" 9 1 (some ⟨1, 0⟩))
    .unknownAccount (by decide)

/-- C10: a Dispute is never checked against the client stored in the
referenced historical deposit — with a mismatched client it still succeeds
(other checks passing), the hold lands on the account named by the incoming
record's client field, and every other account is untouched. -/
theorem C10_no_client_check (s : RState) (r : Record) (h0 : Record) (amt : Dec) (a : Account)
    (hty : TxType.from_str r.tx_type = some TxType.dispute)
    (hist : s.transactions r.tx = some h0)
    (hkind : strToLower h0.tx_type = "deposit")
    (hmism : h0.client ≠ r.client)
    (hamt : h0.amount = some amt)
    (hacc : s.accounts r.client = some a)
    (hnl : a.locked = false)
    (hav : amt.le a.available = true)
    (hnd : s.disputes r.tx = false) :
    (process_transaction s r).2 = .ok () ∧
    (process_transaction s r).1.accounts r.client =
      some { a with available := a.available.sub amt, held := a.held.add amt } ∧
    (∀ c, c ≠ r.client → (process_transaction s r).1.accounts c = s.accounts c) ∧
    (process_transaction s r).1.disputes r.tx = true := by
  have hap : a.apply_dispute amt =
      .ok { a with available := a.available.sub amt, held := a.held.add amt } := by
    unfold Account.apply_dispute
    rw [hnl]
    simp [hav]
  have hd : process_dispute r a s.transactions s.disputes =
      .ok ({ a with available := a.available.sub amt, held := a.held.add amt },
        upd s.disputes r.tx true) := by
    unfold process_dispute
    rw [hist]
    simp [hkind, hnd, hamt, hap]
  have hpt : process_transaction s r =
      (RState.mk
        (upd s.accounts r.client
          (some { a with available := a.available.sub amt, held := a.held.add amt }))
        s.transactions
        (upd s.disputes r.tx true), .ok ()) := by
    simp [process_transaction, hty, hacc, hd]
  refine ⟨by rw [hpt], by rw [hpt]; simp [upd], fun c hc => accounts_frame s r c hc,
    by rw [hpt]; simp [upd]⟩

/-- C10 witness: client 2 disputes client 1's deposit tx 1; the hold is
applied to client 2's account and the outcome is success. -/
theorem C10_witness :
    (process_transaction
        (processList initState
          [Record.mk "deposit" 1 1 (some ⟨10, 0⟩),
           Record.mk "deposit" 2 2 (some ⟨20, 0⟩)])
        (Record.mk "dispute" 2 1 none)).2 = .ok () ∧
    (process_transaction
        (processList initState
          [Record.mk "deposit" 1 1 (some ⟨10, 0⟩),
           Record.mk "deposit" 2 2 (some ⟨20, 0⟩)])
        (Record.mk "dispute" 2 1 none)).1.accounts 2 =
      some (Account.mk (Dec.sub (Dec.add ⟨0, 0⟩ ⟨20, 0⟩) ⟨10, 0⟩)
        (Dec.add ⟨0, 0⟩ ⟨10, 0⟩) (Dec.add ⟨0, 0⟩ ⟨20, 0⟩) false) ∧
    (process_transaction
        (processList initState
          [Record.mk "deposit" 1 1 (some ⟨10, 0⟩),
           Record.mk "deposit" 2 2 (some ⟨20, 0⟩)])
        (Record.mk "dispute" 2 1 none)).1.disputes 1 = true := by
  have h := C10_no_client_check
    (processList initState
      [Record.mk "deposit" 1 1 (some ⟨10, 0⟩),
       Record.mk "deposit" 2 2 (some ⟨20, 0⟩)])
    (Record.mk "dispute" 2 1 none)
    (Record.mk "deposit" 1 1 (some ⟨10, 0⟩)) ⟨10, 0⟩
    (Account.mk (Dec.add ⟨0, 0⟩ ⟨20, 0⟩) ⟨0, 0⟩ (Dec.add ⟨0, 0⟩ ⟨20, 0⟩) false)
    (by decide) (by decide) (by decide) (by decide) (by decide) (by decide)
    (by decide) (by decide) (by decide)
  exact ⟨h.1, h.2.1, h.2.2.2⟩
